import Mathlib

set_option maxRecDepth 100000

/-!
Verification of `android/scripts/ensure_16k_page.py`: a patcher that rewrites
the program-header table of an ELF binary so that every PT_LOAD segment
declares `p_align ≥ 16384`.

The byte buffer (`bytearray`) is modelled as `List Nat` (each element a byte
value).  Multi-byte reads/writes (`struct.unpack_from` / `struct.pack_into`)
are modelled by `unpackFrom` / `packInto`, which fail (return `none`) exactly
when the Python functions would raise `struct.error`, i.e. when
`offset + size > len(buffer)`.  Python exceptions are modelled by the
`PatchError` type and `Except`.
-/

/-- Module-level constant `PAGE_SIZE = 16384`. -/
def PAGE_SIZE : Nat := 16384

/-- Module-level constant `ELF_MAGIC = b"\x7fELF"` as byte values. -/
def ELF_MAGIC : List Nat := [0x7f, 0x45, 0x4c, 0x46]

/-- Module-level constant `EI_CLASS = 4`. -/
def EI_CLASS : Nat := 4

/-- Module-level constant `ELFCLASS32 = 1`. -/
def ELFCLASS32 : Nat := 1

/-- Module-level constant `ELFCLASS64 = 2`. -/
def ELFCLASS64 : Nat := 2

/-- Module-level constant `EI_DATA = 5`. -/
def EI_DATA : Nat := 5

/-- Module-level constant `ELFDATA2LSB = 1`. -/
def ELFDATA2LSB : Nat := 1

/-- Module-level constant `PT_LOAD = 1`. -/
def PT_LOAD : Nat := 1

/-- Byte order selected by the `endian` variable (`"<"` or `">"`). -/
inductive Endian where
  | little
  | big
deriving DecidableEq, Repr

/-- Exceptions that the script can raise.  `notElf` and `unsupportedClass`
are the two `ValueError`s raised explicitly by `read_header`; `indexError`
models Python's `IndexError` from an out-of-range `data[i]`; `structError`
models `struct.error` from an out-of-range `unpack_from` / `pack_into`. -/
inductive PatchError where
  | notElf
  | unsupportedClass (b : Nat)
  | indexError
  | structError
deriving DecidableEq, Repr

/-- Little-endian interpretation of a byte list (least significant first). -/
def decodeLE : List Nat → Nat
  | [] => 0
  | b :: bs => b + 256 * decodeLE bs

/-- Fixed-width little-endian encoding of a value (`size` bytes). -/
def encodeLE : Nat → Nat → List Nat
  | 0, _ => []
  | n + 1, v => (v % 256) :: encodeLE n (v / 256)

/-- Interpretation of a byte list in the given byte order. -/
def decodeB (e : Endian) (bs : List Nat) : Nat :=
  match e with
  | .little => decodeLE bs
  | .big => decodeLE bs.reverse

/-- Fixed-width encoding of a value in the given byte order. -/
def encodeB (e : Endian) (size v : Nat) : List Nat :=
  match e with
  | .little => encodeLE size v
  | .big => (encodeLE size v).reverse

/-- The `size` bytes of `data` starting at `off`. -/
def readBytes (data : List Nat) (off size : Nat) : List Nat :=
  (data.drop off).take size

/-- Overwrite the bytes of `data` starting at `off` with `bs` (in-place
mutation of a `bytearray` slice). -/
def setBytes (data : List Nat) (off : Nat) (bs : List Nat) : List Nat :=
  data.take off ++ bs ++ data.drop (off + bs.length)

/-- `struct.unpack_from(f"{endian}{fmt}", data, off)[0]` for an unsigned
field of width `size`; `none` models the `struct.error` raised when the
buffer is too short. -/
def unpackFrom (e : Endian) (size : Nat) (data : List Nat) (off : Nat) : Option Nat :=
  if off + size ≤ data.length then some (decodeB e (readBytes data off size)) else none

/-- `struct.pack_into(f"{endian}{fmt}", data, off, v)` for an unsigned field
of width `size`; `none` models the `struct.error` raised when the buffer is
too short. -/
def packInto (e : Endian) (size : Nat) (data : List Nat) (off v : Nat) : Option (List Nat) :=
  if off + size ≤ data.length then some (setBytes data off (encodeB e size v)) else none

/-- The five values returned by `read_header`. -/
structure ElfHeader where
  elf_class : Nat
  endian : Endian
  e_phoff : Nat
  e_phentsize : Nat
  e_phnum : Nat
deriving DecidableEq, Repr

/-- `read_header(data)`: validate the ELF magic and class byte, then read
the program-header table descriptor at the width-dependent fixed offsets. -/
def read_header (data : List Nat) : Except PatchError ElfHeader :=
  if data.take 4 ≠ ELF_MAGIC then .error .notElf
  else
    match data[EI_CLASS]? with
    | none => .error .indexError
    | some elf_class =>
      if ¬ (elf_class = ELFCLASS32 ∨ elf_class = ELFCLASS64) then
        .error (.unsupportedClass elf_class)
      else
        match data[EI_DATA]? with
        | none => .error .indexError
        | some db =>
          let endian := if db = ELFDATA2LSB then Endian.little else Endian.big
          if elf_class = ELFCLASS64 then
            match unpackFrom endian 8 data 0x20 with
            | none => .error .structError
            | some e_phoff =>
              match unpackFrom endian 2 data 0x36 with
              | none => .error .structError
              | some e_phentsize =>
                match unpackFrom endian 2 data 0x38 with
                | none => .error .structError
                | some e_phnum =>
                  .ok ⟨elf_class, endian, e_phoff, e_phentsize, e_phnum⟩
          else
            match unpackFrom endian 4 data 0x1C with
            | none => .error .structError
            | some e_phoff =>
              match unpackFrom endian 2 data 0x2A with
              | none => .error .structError
              | some e_phentsize =>
                match unpackFrom endian 2 data 0x2C with
                | none => .error .structError
                | some e_phnum =>
                  .ok ⟨elf_class, endian, e_phoff, e_phentsize, e_phnum⟩

/-- Sub-offset of the alignment field within an entry: `0x38` for 64-bit,
`0x1C` for 32-bit (the values hard-coded in `apply_alignment`). -/
def alignDelta (ec : Nat) : Nat := if ec = ELFCLASS64 then 0x38 else 0x1C

/-- Width of the alignment field: 8 bytes (`Q`) for 64-bit, 4 (`I`) else. -/
def alignWidth (ec : Nat) : Nat := if ec = ELFCLASS64 then 8 else 4

/-- `entry_offset = phoff + index * phentsize`. -/
def entryOff (phoff pes index : Nat) : Nat := phoff + index * pes

/-- The scanning loop of `apply_alignment` (`for index in range(phnum)`),
with `fuel` remaining iterations starting at `index`.  One iteration:
bounds guard (`break` on overflow), read `p_type` (4 bytes), compute the
alignment offset and read the alignment field, skip non-`PT_LOAD` entries,
patch alignment values `= 0` or `< PAGE_SIZE` in place and set `changed`. -/
def scanFrom (ec : Nat) (e : Endian) (phoff pes : Nat) :
    Nat → Nat → List Nat → Bool → Except PatchError (List Nat × Bool)
  | _, 0, data, changed => .ok (data, changed)
  | index, fuel + 1, data, changed =>
    if entryOff phoff pes index + pes > data.length then .ok (data, changed)
    else
      match unpackFrom e 4 data (entryOff phoff pes index) with
      | none => .error .structError
      | some p_type =>
        match unpackFrom e (alignWidth ec) data (entryOff phoff pes index + alignDelta ec) with
        | none => .error .structError
        | some align =>
          if p_type ≠ PT_LOAD then
            scanFrom ec e phoff pes (index + 1) fuel data changed
          else if align = 0 ∨ align < PAGE_SIZE then
            match packInto e (alignWidth ec) data
                (entryOff phoff pes index + alignDelta ec) PAGE_SIZE with
            | none => .error .structError
            | some data2 => scanFrom ec e phoff pes (index + 1) fuel data2 true
          else
            scanFrom ec e phoff pes (index + 1) fuel data changed

/-- The pure core of `apply_alignment(path)`: from the file's bytes, parse
the header, stop on a degenerate descriptor, otherwise run the scan; returns
the final buffer and the `changed` flag, or the raised exception. -/
def apply_alignment_pure (data : List Nat) : Except PatchError (List Nat × Bool) :=
  match read_header data with
  | .error err => .error err
  | .ok h =>
    if h.e_phoff = 0 ∨ h.e_phentsize = 0 ∨ h.e_phnum = 0 then .ok (data, false)
    else scanFrom h.elf_class h.endian h.e_phoff h.e_phentsize 0 h.e_phnum data false

deriving instance DecidableEq for Except

/-- Result of one invocation of `apply_alignment` at the filesystem level:
the bytes on disk afterwards, whether any write happened, and the returned
value or raised exception. -/
structure DiskRun where
  disk : List Nat
  wrote : Bool
  outcome : Except PatchError Bool
deriving DecidableEq, Repr

/-- `apply_alignment` including its write-back step: the temp-file write and
`os.replace` happen only when `changed` is true; on an exception nothing has
been written. -/
def apply_alignment_disk (data : List Nat) : DiskRun :=
  match apply_alignment_pure data with
  | .error err => ⟨data, false, .error err⟩
  | .ok (d, changed) => ⟨if changed then d else data, changed, .ok changed⟩

/-- The message text of each exception as printed by `main`.  The first two
are the `ValueError` strings from `read_header`; the last two stand for the
interpreter-supplied texts of `IndexError` and `struct.error`. -/
def excMessage : PatchError → String
  | .notElf => "Not an ELF binary"
  | .unsupportedClass b => s!"Unsupported ELF class: {b}"
  | .indexError => "bytearray index out of range"
  | .structError => "unpack_from requires a buffer"

/-- Exit code and printed lines of one run of `main`. -/
structure MainOutcome where
  exitCode : Nat
  stdoutLines : List String
  stderrLines : List String
deriving DecidableEq, Repr

/-- `main()`: `argv` is the full `sys.argv` (program name included) and
`fileData` the bytes of the target file.  Wrong argument count prints usage
and returns 1; an exception is caught, a diagnostic printed, and 2 returned;
otherwise 0 is returned, with a confirmation line when a change was made. -/
def main_run (argv : List String) (fileData : List Nat) : MainOutcome :=
  if argv.length ≠ 2 then ⟨1, [], ["Usage: ensure_16k_page.py <path-to-so>"]⟩
  else
    let target := argv.getD 1 ""
    match apply_alignment_pure fileData with
    | .ok (_, updated) =>
      if updated then ⟨0, [s!"Aligned {target} to {PAGE_SIZE} bytes"], []⟩
      else ⟨0, [], []⟩
    | .error exc =>
      let m := excMessage exc
      ⟨2, [], [s!"[ensure_16k_page] Skipped {target}: {m}"]⟩

/-- Entry `index` lies within the buffer bounds (the loop's guard). -/
def inBoundsEntry (phoff pes len index : Nat) : Prop :=
  entryOff phoff pes index + pes ≤ len

/-- Entry `index` carries the `PT_LOAD` type tag. -/
def isLoadEntry (e : Endian) (phoff pes : Nat) (data : List Nat) (index : Nat) : Prop :=
  unpackFrom e 4 data (entryOff phoff pes index) = some PT_LOAD

/-- The alignment field of entry `index`, as read by the scanner. -/
def alignValue (ec : Nat) (e : Endian) (phoff pes : Nat) (data : List Nat) (index : Nat) :
    Option Nat :=
  unpackFrom e (alignWidth ec) data (entryOff phoff pes index + alignDelta ec)

/-- Entry `index` is one the scanner patches: in bounds, `PT_LOAD`, and its
alignment value is below the threshold. -/
def needsPatch (ec : Nat) (e : Endian) (phoff pes : Nat) (data : List Nat) (index : Nat) :
    Prop :=
  inBoundsEntry phoff pes data.length index ∧ isLoadEntry e phoff pes data index ∧
    (alignValue ec e phoff pes data index).getD PAGE_SIZE < PAGE_SIZE

/-- Byte position `j` lies in the alignment field of entry `index`. -/
def alignRegionAt (ec : Nat) (phoff pes index j : Nat) : Prop :=
  entryOff phoff pes index + alignDelta ec ≤ j ∧
    j < entryOff phoff pes index + alignDelta ec + alignWidth ec

/-- Last byte position (exclusive) that `read_header` examines for each
class: `0x3A` for 64-bit, `0x2E` for 32-bit. -/
def headerEnd (ec : Nat) : Nat := if ec = ELFCLASS64 then 0x3A else 0x2E

instance (phoff pes len index) : Decidable (inBoundsEntry phoff pes len index) := by
  unfold inBoundsEntry
  exact inferInstance

instance (e phoff pes data index) : Decidable (isLoadEntry e phoff pes data index) := by
  unfold isLoadEntry
  exact inferInstance

instance (ec e phoff pes data index) : Decidable (needsPatch ec e phoff pes data index) := by
  unfold needsPatch inBoundsEntry isLoadEntry
  exact inferInstance

instance (ec phoff pes index j) : Decidable (alignRegionAt ec phoff pes index j) := by
  unfold alignRegionAt
  exact inferInstance

/-- Build a concrete buffer: apply a list of `(offset, bytes)` overwrites to
a base buffer. -/
def patchList (base : List Nat) (ps : List (Nat × List Nat)) : List Nat :=
  ps.foldl (fun d p => setBytes d p.1 p.2) base

/-! ### Byte-level lemmas -/

theorem encodeLE_length (n v : Nat) : (encodeLE n v).length = n := by
  induction n generalizing v with
  | zero => rfl
  | succ n ih => simp [encodeLE, ih]

theorem encodeB_length (e : Endian) (n v : Nat) : (encodeB e n v).length = n := by
  cases e <;> simp [encodeB, encodeLE_length]

theorem decodeLE_encodeLE (n v : Nat) : decodeLE (encodeLE n v) = v % 256 ^ n := by
  induction n generalizing v with
  | zero =>
    simp only [encodeLE, decodeLE, pow_zero]
    omega
  | succ n ih => rw [encodeLE, decodeLE, ih, pow_succ', Nat.mod_mul]

theorem decodeB_encodeB (e : Endian) (n v : Nat) :
    decodeB e (encodeB e n v) = v % 256 ^ n := by
  cases e <;> simp [decodeB, encodeB, List.reverse_reverse, decodeLE_encodeLE]

theorem readBytes_idx (data : List Nat) (off size n : Nat) :
    (readBytes data off size)[n]? = if n < size then data[off + n]? else none := by
  unfold readBytes
  rw [List.getElem?_take]
  by_cases h : n < size
  · simp [h, List.getElem?_drop]
  · simp [h]

theorem setBytes_length {data bs : List Nat} {off : Nat}
    (h : off + bs.length ≤ data.length) :
    (setBytes data off bs).length = data.length := by
  unfold setBytes
  simp only [List.length_append, List.length_take, List.length_drop]
  omega

theorem setBytes_idx (data : List Nat) (off : Nat) (bs : List Nat) (j : Nat)
    (h : off + bs.length ≤ data.length) :
    (setBytes data off bs)[j]? =
      if j < off then data[j]?
      else if j < off + bs.length then bs[j - off]?
      else data[j]? := by
  unfold setBytes
  have hto : (data.take off).length = off := by
    simp only [List.length_take]
    omega
  have hl : (data.take off ++ bs).length = off + bs.length := by
    simp [hto]
  rw [List.getElem?_append, hl]
  by_cases h2 : j < off + bs.length
  · rw [if_pos h2, List.getElem?_append, hto]
    by_cases h1 : j < off
    · rw [if_pos h1, if_pos h1, List.getElem?_take, if_pos h1]
    · rw [if_neg h1, if_neg h1, if_pos h2]
  · rw [if_neg h2, if_neg (show ¬ j < off by omega), if_neg h2, List.getElem?_drop]
    congr 1
    omega

theorem unpackFrom_pos {e : Endian} {s : Nat} {data : List Nat} {off : Nat}
    (h : off + s ≤ data.length) :
    unpackFrom e s data off = some (decodeB e (readBytes data off s)) := by
  unfold unpackFrom
  rw [if_pos h]

theorem unpackFrom_some_le {e : Endian} {s : Nat} {data : List Nat} {off v : Nat}
    (h : unpackFrom e s data off = some v) : off + s ≤ data.length := by
  unfold unpackFrom at h
  by_cases hb : off + s ≤ data.length
  · exact hb
  · rw [if_neg hb] at h
    exact absurd h (by simp)

theorem packInto_pos {e : Endian} {s : Nat} {data : List Nat} {off v : Nat}
    (h : off + s ≤ data.length) :
    packInto e s data off v = some (setBytes data off (encodeB e s v)) := by
  unfold packInto
  rw [if_pos h]

theorem unpackFrom_congr {e : Endian} {s : Nat} {d1 d2 : List Nat} {off : Nat}
    (hlen : d1.length = d2.length)
    (hag : ∀ j, off ≤ j → j < off + s → d1[j]? = d2[j]?) :
    unpackFrom e s d1 off = unpackFrom e s d2 off := by
  unfold unpackFrom
  rw [hlen]
  by_cases h : off + s ≤ d2.length
  · rw [if_pos h, if_pos h]
    have hr : readBytes d1 off s = readBytes d2 off s := by
      apply List.ext_getElem?
      intro n
      rw [readBytes_idx, readBytes_idx]
      by_cases hn : n < s
      · rw [if_pos hn, if_pos hn]
        exact hag (off + n) (by omega) (by omega)
      · rw [if_neg hn, if_neg hn]
    rw [hr]
  · rw [if_neg h, if_neg h]

theorem unpackFrom_setBytes_outside {e : Endian} {s1 : Nat} {data bs : List Nat}
    {off o1 : Nat} (hb : off + bs.length ≤ data.length)
    (hd : o1 + s1 ≤ off ∨ off + bs.length ≤ o1) :
    unpackFrom e s1 (setBytes data off bs) o1 = unpackFrom e s1 data o1 := by
  apply unpackFrom_congr (setBytes_length hb)
  intro j hj1 hj2
  rw [setBytes_idx data off bs j hb]
  rcases hd with h | h
  · rw [if_pos (by omega)]
  · rw [if_neg (by omega), if_neg (by omega)]

theorem unpackFrom_setBytes_self {e : Endian} {data bs : List Nat} {off : Nat}
    (hb : off + bs.length ≤ data.length) :
    unpackFrom e bs.length (setBytes data off bs) off = some (decodeB e bs) := by
  unfold unpackFrom
  rw [setBytes_length hb, if_pos hb]
  have hr : readBytes (setBytes data off bs) off bs.length = bs := by
    apply List.ext_getElem?
    intro n
    rw [readBytes_idx]
    by_cases hn : n < bs.length
    · rw [if_pos hn, setBytes_idx data off bs _ hb, if_neg (by omega), if_pos (by omega)]
      congr 1
      omega
    · rw [if_neg hn, eq_comm, List.getElem?_eq_none]
      omega
  rw [hr]

/-! ### Entry-layout arithmetic -/

theorem four_le_alignDelta (ec : Nat) : 4 ≤ alignDelta ec := by
  unfold alignDelta
  split <;> omega

theorem alignWidth_pos (ec : Nat) : 0 < alignWidth ec := by
  unfold alignWidth
  split <;> omega

theorem page_mod (ec : Nat) : PAGE_SIZE % 256 ^ alignWidth ec = PAGE_SIZE := by
  unfold alignWidth PAGE_SIZE
  split <;> decide

theorem decode_page (ec : Nat) (e : Endian) :
    decodeB e (encodeB e (alignWidth ec) PAGE_SIZE) = PAGE_SIZE := by
  rw [decodeB_encodeB, page_mod]

theorem entryOff_mono (phoff pes : Nat) {m m' : Nat} (h : m < m') :
    entryOff phoff pes m + pes ≤ entryOff phoff pes m' := by
  unfold entryOff
  have h1 : (m + 1) * pes ≤ m' * pes := Nat.mul_le_mul_right pes h
  have h2 : m * pes + pes = (m + 1) * pes := by ring
  omega

theorem regionsDisjoint (phoff pes : Nat) {m m' r1 s1 r2 s2 : Nat} (hne : m ≠ m')
    (h1 : r1 + s1 ≤ pes) (h2 : r2 + s2 ≤ pes) :
    entryOff phoff pes m + r1 + s1 ≤ entryOff phoff pes m' + r2 ∨
      entryOff phoff pes m' + r2 + s2 ≤ entryOff phoff pes m + r1 := by
  rcases Nat.lt_or_ge m m' with h | h
  · left
    have := entryOff_mono phoff pes h
    omega
  · right
    have hlt : m' < m := by omega
    have := entryOff_mono phoff pes hlt
    omega

/-! ### Scan-loop step lemmas -/

theorem scanFrom_break (ec : Nat) (e : Endian) (phoff pes index fuel : Nat)
    (data : List Nat) (ch : Bool)
    (h : data.length < entryOff phoff pes index + pes) :
    scanFrom ec e phoff pes index (fuel + 1) data ch = .ok (data, ch) := by
  unfold scanFrom
  rw [if_pos h]

theorem scanFrom_step (ec : Nat) (e : Endian) (phoff pes index fuel : Nat)
    (data : List Nat) (ch : Bool)
    (hg : entryOff phoff pes index + pes ≤ data.length)
    (p_type align : Nat)
    (hpt : unpackFrom e 4 data (entryOff phoff pes index) = some p_type)
    (hal : unpackFrom e (alignWidth ec) data
        (entryOff phoff pes index + alignDelta ec) = some align) :
    scanFrom ec e phoff pes index (fuel + 1) data ch =
      if p_type ≠ PT_LOAD then scanFrom ec e phoff pes (index + 1) fuel data ch
      else if align = 0 ∨ align < PAGE_SIZE then
        scanFrom ec e phoff pes (index + 1) fuel
          (setBytes data (entryOff phoff pes index + alignDelta ec)
            (encodeB e (alignWidth ec) PAGE_SIZE)) true
      else scanFrom ec e phoff pes (index + 1) fuel data ch := by
  have hb : entryOff phoff pes index + alignDelta ec + alignWidth ec ≤ data.length :=
    unpackFrom_some_le hal
  have hb2 : entryOff phoff pes index + alignDelta ec + (encodeB e (alignWidth ec)
      PAGE_SIZE).length ≤ data.length := by
    rw [encodeB_length]
    exact hb
  conv_lhs => rw [scanFrom]
  rw [if_neg (by omega : ¬ entryOff phoff pes index + pes > data.length), hpt, hal]
  simp only [packInto_pos hb]

theorem scanFrom_ptype_none (ec : Nat) (e : Endian) (phoff pes index fuel : Nat)
    (data : List Nat) (ch : Bool)
    (hg : entryOff phoff pes index + pes ≤ data.length)
    (hpt : unpackFrom e 4 data (entryOff phoff pes index) = none) :
    scanFrom ec e phoff pes index (fuel + 1) data ch = .error .structError := by
  conv_lhs => rw [scanFrom]
  rw [if_neg (by omega : ¬ entryOff phoff pes index + pes > data.length), hpt]

theorem scanFrom_align_none (ec : Nat) (e : Endian) (phoff pes index fuel : Nat)
    (data : List Nat) (ch : Bool) (p_type : Nat)
    (hg : entryOff phoff pes index + pes ≤ data.length)
    (hpt : unpackFrom e 4 data (entryOff phoff pes index) = some p_type)
    (hal : unpackFrom e (alignWidth ec) data
        (entryOff phoff pes index + alignDelta ec) = none) :
    scanFrom ec e phoff pes index (fuel + 1) data ch = .error .structError := by
  conv_lhs => rw [scanFrom]
  rw [if_neg (by omega : ¬ entryOff phoff pes index + pes > data.length), hpt, hal]

/-! ### Master lemmas about the scan -/

theorem scanFrom_length (ec : Nat) (e : Endian) (phoff pes : Nat) :
    ∀ fuel index data ch d' c',
      scanFrom ec e phoff pes index fuel data ch = .ok (d', c') →
      d'.length = data.length := by
  intro fuel
  induction fuel with
  | zero =>
    intro index data ch d' c' h
    simp only [scanFrom, Except.ok.injEq, Prod.mk.injEq] at h
    rw [← h.1]
  | succ fuel ih =>
    intro index data ch d' c' h
    by_cases hg : entryOff phoff pes index + pes > data.length
    · rw [scanFrom_break ec e phoff pes index fuel data ch hg] at h
      simp only [Except.ok.injEq, Prod.mk.injEq] at h
      rw [← h.1]
    · have hg' : entryOff phoff pes index + pes ≤ data.length := by omega
      cases hpt : unpackFrom e 4 data (entryOff phoff pes index) with
      | none =>
        rw [scanFrom_ptype_none ec e phoff pes index fuel data ch hg' hpt] at h
        simp at h
      | some p_type =>
        cases hal : unpackFrom e (alignWidth ec) data
            (entryOff phoff pes index + alignDelta ec) with
        | none =>
          rw [scanFrom_align_none ec e phoff pes index fuel data ch p_type hg' hpt hal] at h
          simp at h
        | some align =>
          rw [scanFrom_step ec e phoff pes index fuel data ch hg' p_type align hpt hal] at h
          have hb : entryOff phoff pes index + alignDelta ec + alignWidth ec ≤
              data.length := unpackFrom_some_le hal
          by_cases h1 : p_type ≠ PT_LOAD
          · rw [if_pos h1] at h
            exact ih _ _ _ _ _ h
          · rw [if_neg h1] at h
            by_cases h2 : align = 0 ∨ align < PAGE_SIZE
            · rw [if_pos h2] at h
              have := ih _ _ _ _ _ h
              rw [this, setBytes_length]
              rw [encodeB_length]
              exact hb
            · rw [if_neg h2] at h
              exact ih _ _ _ _ _ h

theorem scanFrom_true (ec : Nat) (e : Endian) (phoff pes : Nat) :
    ∀ fuel index data d' c',
      scanFrom ec e phoff pes index fuel data true = .ok (d', c') → c' = true := by
  intro fuel
  induction fuel with
  | zero =>
    intro index data d' c' h
    simp only [scanFrom, Except.ok.injEq, Prod.mk.injEq] at h
    rw [← h.2]
  | succ fuel ih =>
    intro index data d' c' h
    by_cases hg : entryOff phoff pes index + pes > data.length
    · rw [scanFrom_break ec e phoff pes index fuel data true hg] at h
      simp only [Except.ok.injEq, Prod.mk.injEq] at h
      rw [← h.2]
    · have hg' : entryOff phoff pes index + pes ≤ data.length := by omega
      cases hpt : unpackFrom e 4 data (entryOff phoff pes index) with
      | none =>
        rw [scanFrom_ptype_none ec e phoff pes index fuel data true hg' hpt] at h
        simp at h
      | some p_type =>
        cases hal : unpackFrom e (alignWidth ec) data
            (entryOff phoff pes index + alignDelta ec) with
        | none =>
          rw [scanFrom_align_none ec e phoff pes index fuel data true p_type hg' hpt hal] at h
          simp at h
        | some align =>
          rw [scanFrom_step ec e phoff pes index fuel data true hg' p_type align hpt hal] at h
          by_cases h1 : p_type ≠ PT_LOAD
          · rw [if_pos h1] at h
            exact ih _ _ _ _ h
          · rw [if_neg h1] at h
            by_cases h2 : align = 0 ∨ align < PAGE_SIZE
            · rw [if_pos h2] at h
              exact ih _ _ _ _ h
            · rw [if_neg h2] at h
              exact ih _ _ _ _ h

theorem scanFrom_unchanged (ec : Nat) (e : Endian) (phoff pes : Nat) :
    ∀ fuel index data ch d',
      scanFrom ec e phoff pes index fuel data ch = .ok (d', false) →
      d' = data ∧ ch = false := by
  intro fuel
  induction fuel with
  | zero =>
    intro index data ch d' h
    simp only [scanFrom, Except.ok.injEq, Prod.mk.injEq] at h
    exact ⟨h.1.symm, h.2⟩
  | succ fuel ih =>
    intro index data ch d' h
    by_cases hg : entryOff phoff pes index + pes > data.length
    · rw [scanFrom_break ec e phoff pes index fuel data ch hg] at h
      simp only [Except.ok.injEq, Prod.mk.injEq] at h
      exact ⟨h.1.symm, h.2⟩
    · have hg' : entryOff phoff pes index + pes ≤ data.length := by omega
      cases hpt : unpackFrom e 4 data (entryOff phoff pes index) with
      | none =>
        rw [scanFrom_ptype_none ec e phoff pes index fuel data ch hg' hpt] at h
        simp at h
      | some p_type =>
        cases hal : unpackFrom e (alignWidth ec) data
            (entryOff phoff pes index + alignDelta ec) with
        | none =>
          rw [scanFrom_align_none ec e phoff pes index fuel data ch p_type hg' hpt hal] at h
          simp at h
        | some align =>
          rw [scanFrom_step ec e phoff pes index fuel data ch hg' p_type align hpt hal] at h
          by_cases h1 : p_type ≠ PT_LOAD
          · rw [if_pos h1] at h
            exact ih _ _ _ _ h
          · rw [if_neg h1] at h
            by_cases h2 : align = 0 ∨ align < PAGE_SIZE
            · rw [if_pos h2] at h
              exact absurd (scanFrom_true ec e phoff pes fuel _ _ _ _ h) (by simp)
            · rw [if_neg h2] at h
              exact ih _ _ _ _ h

theorem needsPatch_setBytes (ec : Nat) (e : Endian) (phoff pes : Nat) (data : List Nat)
    (index m : Nat) (hw : alignDelta ec + alignWidth ec ≤ pes) (hne : m ≠ index)
    (hb : entryOff phoff pes index + alignDelta ec + alignWidth ec ≤ data.length) :
    needsPatch ec e phoff pes
      (setBytes data (entryOff phoff pes index + alignDelta ec)
        (encodeB e (alignWidth ec) PAGE_SIZE)) m ↔
    needsPatch ec e phoff pes data m := by
  have hd4 : 4 ≤ alignDelta ec := four_le_alignDelta ec
  have hwp : 0 < alignWidth ec := alignWidth_pos ec
  have hb' : entryOff phoff pes index + alignDelta ec +
      (encodeB e (alignWidth ec) PAGE_SIZE).length ≤ data.length := by
    rw [encodeB_length]
    exact hb
  have hpt : unpackFrom e 4
      (setBytes data (entryOff phoff pes index + alignDelta ec)
        (encodeB e (alignWidth ec) PAGE_SIZE)) (entryOff phoff pes m) =
      unpackFrom e 4 data (entryOff phoff pes m) := by
    apply unpackFrom_setBytes_outside hb'
    rw [encodeB_length]
    rcases @regionsDisjoint phoff pes m index 0 4 (alignDelta ec) (alignWidth ec) hne
        (by omega) hw with h | h
    · left; omega
    · right; omega
  have hav : unpackFrom e (alignWidth ec)
      (setBytes data (entryOff phoff pes index + alignDelta ec)
        (encodeB e (alignWidth ec) PAGE_SIZE)) (entryOff phoff pes m + alignDelta ec) =
      unpackFrom e (alignWidth ec) data (entryOff phoff pes m + alignDelta ec) := by
    apply unpackFrom_setBytes_outside hb'
    rw [encodeB_length]
    rcases @regionsDisjoint phoff pes m index (alignDelta ec) (alignWidth ec)
        (alignDelta ec) (alignWidth ec) hne hw hw with h | h
    · left; omega
    · right; omega
  unfold needsPatch inBoundsEntry isLoadEntry alignValue
  rw [setBytes_length hb', hpt, hav]

theorem scanFrom_no_patch (ec : Nat) (e : Endian) (phoff pes : Nat)
    (hw : alignDelta ec + alignWidth ec ≤ pes) :
    ∀ fuel index data ch,
      (∀ m, index ≤ m → m < index + fuel → ¬ needsPatch ec e phoff pes data m) →
      scanFrom ec e phoff pes index fuel data ch = .ok (data, ch) := by
  have hd4 : 4 ≤ alignDelta ec := four_le_alignDelta ec
  have hwp : 0 < alignWidth ec := alignWidth_pos ec
  intro fuel
  induction fuel with
  | zero =>
    intro index data ch _
    rfl
  | succ fuel ih =>
    intro index data ch hm
    by_cases hg : entryOff phoff pes index + pes > data.length
    · exact scanFrom_break ec e phoff pes index fuel data ch hg
    · have hg' : entryOff phoff pes index + pes ≤ data.length := by omega
      have hptb : entryOff phoff pes index + 4 ≤ data.length := by omega
      have halb : entryOff phoff pes index + alignDelta ec + alignWidth ec ≤
          data.length := by omega
      have hpt := unpackFrom_pos (e := e) hptb
      have hal := unpackFrom_pos (e := e) halb
      rw [scanFrom_step ec e phoff pes index fuel data ch hg' _ _ hpt hal]
      by_cases h1 : decodeB e (readBytes data (entryOff phoff pes index) 4) ≠ PT_LOAD
      · rw [if_pos h1]
        exact ih (index + 1) data ch (fun m hm1 hm2 => hm m (by omega) (by omega))
      · rw [if_neg h1]
        by_cases h2 : decodeB e (readBytes data
            (entryOff phoff pes index + alignDelta ec) (alignWidth ec)) = 0 ∨
            decodeB e (readBytes data
              (entryOff phoff pes index + alignDelta ec) (alignWidth ec)) < PAGE_SIZE
        · exfalso
          apply hm index (by omega) (by omega)
          refine ⟨hg', ?_, ?_⟩
          · unfold isLoadEntry
            rw [hpt]
            simp only [not_not] at h1
            rw [h1]
          · unfold alignValue
            rw [hal]
            have : (0:Nat) < PAGE_SIZE := by
              unfold PAGE_SIZE
              omega
            simp only [Option.getD_some]
            omega
        · rw [if_neg h2]
          exact ih (index + 1) data ch (fun m hm1 hm2 => hm m (by omega) (by omega))

theorem scanFrom_frame (ec : Nat) (e : Endian) (phoff pes : Nat)
    (hw : alignDelta ec + alignWidth ec ≤ pes) :
    ∀ fuel index data ch d' c',
      scanFrom ec e phoff pes index fuel data ch = .ok (d', c') →
      ∀ j, (∀ m, index ≤ m → m < index + fuel →
          ¬(needsPatch ec e phoff pes data m ∧ alignRegionAt ec phoff pes m j)) →
        d'[j]? = data[j]? := by
  have hd4 := four_le_alignDelta ec
  have hwp := alignWidth_pos ec
  have hp0 : (0:Nat) < PAGE_SIZE := by
    unfold PAGE_SIZE
    omega
  intro fuel
  induction fuel with
  | zero =>
    intro index data ch d' c' h j _
    simp only [scanFrom, Except.ok.injEq, Prod.mk.injEq] at h
    rw [← h.1]
  | succ fuel ih =>
    intro index data ch d' c' h j hj
    by_cases hg : entryOff phoff pes index + pes > data.length
    · rw [scanFrom_break ec e phoff pes index fuel data ch hg] at h
      simp only [Except.ok.injEq, Prod.mk.injEq] at h
      rw [← h.1]
    · have hg' : entryOff phoff pes index + pes ≤ data.length := by omega
      have hptb : entryOff phoff pes index + 4 ≤ data.length := by omega
      have halb : entryOff phoff pes index + alignDelta ec + alignWidth ec ≤
          data.length := by omega
      have hpt := unpackFrom_pos (e := e) hptb
      have hal := unpackFrom_pos (e := e) halb
      rw [scanFrom_step ec e phoff pes index fuel data ch hg' _ _ hpt hal] at h
      by_cases h1 : decodeB e (readBytes data (entryOff phoff pes index) 4) ≠ PT_LOAD
      · rw [if_pos h1] at h
        exact ih (index + 1) data ch d' c' h j
          (fun m hm1 hm2 => hj m (by omega) (by omega))
      · rw [if_neg h1] at h
        by_cases h2 : decodeB e (readBytes data
            (entryOff phoff pes index + alignDelta ec) (alignWidth ec)) = 0 ∨
            decodeB e (readBytes data
              (entryOff phoff pes index + alignDelta ec) (alignWidth ec)) < PAGE_SIZE
        · rw [if_pos h2] at h
          have hnp : needsPatch ec e phoff pes data index := by
            refine ⟨hg', ?_, ?_⟩
            · unfold isLoadEntry
              rw [hpt]
              simp only [not_not] at h1
              rw [h1]
            · unfold alignValue
              rw [hal]
              simp only [Option.getD_some]
              omega
          have hreg : ¬ alignRegionAt ec phoff pes index j :=
            fun hr => hj index (by omega) (by omega) ⟨hnp, hr⟩
          have hout : j < entryOff phoff pes index + alignDelta ec ∨
              entryOff phoff pes index + alignDelta ec + alignWidth ec ≤ j := by
            unfold alignRegionAt at hreg
            omega
          have hb' : entryOff phoff pes index + alignDelta ec +
              (encodeB e (alignWidth ec) PAGE_SIZE).length ≤ data.length := by
            rw [encodeB_length]
            exact halb
          have hstep : (setBytes data (entryOff phoff pes index + alignDelta ec)
              (encodeB e (alignWidth ec) PAGE_SIZE))[j]? = data[j]? := by
            rw [setBytes_idx data _ _ j hb', encodeB_length]
            rcases hout with hc | hc
            · rw [if_pos hc]
            · rw [if_neg (by omega), if_neg (by omega)]
          have htail := ih (index + 1)
            (setBytes data (entryOff phoff pes index + alignDelta ec)
              (encodeB e (alignWidth ec) PAGE_SIZE)) true d' c' h j ?_
          · rw [htail, hstep]
          · intro m hm1 hm2 hand
            exact hj m (by omega) (by omega)
              ⟨(needsPatch_setBytes ec e phoff pes data index m hw (by omega) halb).mp
                hand.1, hand.2⟩
        · rw [if_neg h2] at h
          exact ih (index + 1) data ch d' c' h j
            (fun m hm1 hm2 => hj m (by omega) (by omega))

theorem scanFrom_align_result (ec : Nat) (e : Endian) (phoff pes : Nat)
    (hw : alignDelta ec + alignWidth ec ≤ pes) :
    ∀ fuel index data ch d' c' i a,
      scanFrom ec e phoff pes index fuel data ch = .ok (d', c') →
      index ≤ i → i < index + fuel →
      inBoundsEntry phoff pes data.length i →
      isLoadEntry e phoff pes data i →
      alignValue ec e phoff pes data i = some a →
      alignValue ec e phoff pes d' i =
        some (if a = 0 ∨ a < PAGE_SIZE then PAGE_SIZE else a) := by
  have hd4 := four_le_alignDelta ec
  have hwp := alignWidth_pos ec
  intro fuel
  induction fuel with
  | zero =>
    intro index data ch d' c' i a _ hile hilt
    omega
  | succ fuel ih =>
    intro index data ch d' c' i a h hile hilt hib hload ha
    by_cases hg : entryOff phoff pes index + pes > data.length
    · exfalso
      unfold inBoundsEntry at hib
      rcases Nat.eq_or_lt_of_le hile with heq | hlt
      · rw [← heq] at hib
        omega
      · have := entryOff_mono phoff pes hlt
        omega
    · have hg' : entryOff phoff pes index + pes ≤ data.length := by omega
      have hptb : entryOff phoff pes index + 4 ≤ data.length := by omega
      have halb : entryOff phoff pes index + alignDelta ec + alignWidth ec ≤
          data.length := by omega
      have hpt := unpackFrom_pos (e := e) hptb
      have hal := unpackFrom_pos (e := e) halb
      have hb' : entryOff phoff pes index + alignDelta ec +
          (encodeB e (alignWidth ec) PAGE_SIZE).length ≤ data.length := by
        rw [encodeB_length]
        exact halb
      rw [scanFrom_step ec e phoff pes index fuel data ch hg' _ _ hpt hal] at h
      rcases Nat.eq_or_lt_of_le hile with heq | hlt
      · obtain rfl : i = index := heq.symm
        have hptv : decodeB e (readBytes data (entryOff phoff pes i) 4) = PT_LOAD := by
          unfold isLoadEntry at hload
          rw [hpt] at hload
          exact Option.some.inj hload
        have halv : decodeB e (readBytes data
            (entryOff phoff pes i + alignDelta ec) (alignWidth ec)) = a := by
          unfold alignValue at ha
          rw [hal] at ha
          exact Option.some.inj ha
        rw [if_neg (by simp [hptv])] at h
        by_cases h2 : a = 0 ∨ a < PAGE_SIZE
        · rw [if_pos (by rw [halv]; exact h2)] at h
          have hv2 : unpackFrom e (alignWidth ec)
              (setBytes data (entryOff phoff pes i + alignDelta ec)
                (encodeB e (alignWidth ec) PAGE_SIZE))
              (entryOff phoff pes i + alignDelta ec) = some PAGE_SIZE := by
            have hself := @unpackFrom_setBytes_self e data
              (encodeB e (alignWidth ec) PAGE_SIZE)
              (entryOff phoff pes i + alignDelta ec) hb'
            rw [encodeB_length] at hself
            rw [hself, decode_page]
          have hlend := scanFrom_length ec e phoff pes fuel (i + 1) _ true d' c' h
          have hcong : unpackFrom e (alignWidth ec) d'
              (entryOff phoff pes i + alignDelta ec) =
              unpackFrom e (alignWidth ec)
                (setBytes data (entryOff phoff pes i + alignDelta ec)
                  (encodeB e (alignWidth ec) PAGE_SIZE))
                (entryOff phoff pes i + alignDelta ec) := by
            apply unpackFrom_congr hlend
            intro j hj1 hj2
            apply scanFrom_frame ec e phoff pes hw fuel (i + 1) _ true d' c' h j
            intro m hm1 hm2 hand
            have hr := hand.2
            unfold alignRegionAt at hr
            rcases @regionsDisjoint phoff pes m i (alignDelta ec) (alignWidth ec)
                (alignDelta ec) (alignWidth ec) (by omega) hw hw with hd | hd
            · omega
            · omega
          unfold alignValue
          rw [hcong, if_pos h2]
          exact hv2
        · rw [if_neg (by rw [halv]; exact h2)] at h
          have hlend := scanFrom_length ec e phoff pes fuel (i + 1) data ch d' c' h
          have hcong : unpackFrom e (alignWidth ec) d'
              (entryOff phoff pes i + alignDelta ec) =
              unpackFrom e (alignWidth ec) data
                (entryOff phoff pes i + alignDelta ec) := by
            apply unpackFrom_congr hlend
            intro j hj1 hj2
            apply scanFrom_frame ec e phoff pes hw fuel (i + 1) data ch d' c' h j
            intro m hm1 hm2 hand
            have hr := hand.2
            unfold alignRegionAt at hr
            rcases @regionsDisjoint phoff pes m i (alignDelta ec) (alignWidth ec)
                (alignDelta ec) (alignWidth ec) (by omega) hw hw with hd | hd
            · omega
            · omega
          unfold alignValue
          rw [hcong, if_neg h2]
          unfold alignValue at ha
          exact ha
      · by_cases h1 : decodeB e (readBytes data (entryOff phoff pes index) 4) ≠ PT_LOAD
        · rw [if_pos h1] at h
          exact ih (index + 1) data ch d' c' i a h (by omega) (by omega) hib hload ha
        · rw [if_neg h1] at h
          by_cases h2 : decodeB e (readBytes data
              (entryOff phoff pes index + alignDelta ec) (alignWidth ec)) = 0 ∨
              decodeB e (readBytes data
                (entryOff phoff pes index + alignDelta ec) (alignWidth ec)) < PAGE_SIZE
          · rw [if_pos h2] at h
            have hlen2 := setBytes_length hb'
            have hib2 : inBoundsEntry phoff pes
                (setBytes data (entryOff phoff pes index + alignDelta ec)
                  (encodeB e (alignWidth ec) PAGE_SIZE)).length i := by
              unfold inBoundsEntry at hib ⊢
              rw [hlen2]
              exact hib
            have hdis1 : entryOff phoff pes i + 4 ≤
                entryOff phoff pes index + alignDelta ec ∨
                entryOff phoff pes index + alignDelta ec +
                  (encodeB e (alignWidth ec) PAGE_SIZE).length ≤ entryOff phoff pes i := by
              rw [encodeB_length]
              rcases @regionsDisjoint phoff pes i index 0 4 (alignDelta ec)
                  (alignWidth ec) (by omega) (by omega) hw with hd | hd
              · left; omega
              · right; omega
            have hload2 : isLoadEntry e phoff pes
                (setBytes data (entryOff phoff pes index + alignDelta ec)
                  (encodeB e (alignWidth ec) PAGE_SIZE)) i := by
              unfold isLoadEntry at hload ⊢
              rw [unpackFrom_setBytes_outside hb' hdis1]
              exact hload
            have hdis2 : entryOff phoff pes i + alignDelta ec + alignWidth ec ≤
                entryOff phoff pes index + alignDelta ec ∨
                entryOff phoff pes index + alignDelta ec +
                  (encodeB e (alignWidth ec) PAGE_SIZE).length ≤
                  entryOff phoff pes i + alignDelta ec := by
              rw [encodeB_length]
              rcases @regionsDisjoint phoff pes i index (alignDelta ec) (alignWidth ec)
                  (alignDelta ec) (alignWidth ec) (by omega) hw hw with hd | hd
              · left; omega
              · right; omega
            have ha2 : alignValue ec e phoff pes
                (setBytes data (entryOff phoff pes index + alignDelta ec)
                  (encodeB e (alignWidth ec) PAGE_SIZE)) i = some a := by
              unfold alignValue at ha ⊢
              rw [unpackFrom_setBytes_outside hb' hdis2]
              exact ha
            exact ih (index + 1) _ true d' c' i a h (by omega) (by omega) hib2 hload2 ha2
          · rw [if_neg h2] at h
            exact ih (index + 1) data ch d' c' i a h (by omega) (by omega) hib hload ha

theorem scanFrom_needs_true (ec : Nat) (e : Endian) (phoff pes : Nat)
    (hw : alignDelta ec + alignWidth ec ≤ pes) :
    ∀ fuel index data ch d' c',
      scanFrom ec e phoff pes index fuel data ch = .ok (d', c') →
      ∀ i, index ≤ i → i < index + fuel →
        needsPatch ec e phoff pes data i → c' = true := by
  have hd4 := four_le_alignDelta ec
  have hwp := alignWidth_pos ec
  intro fuel
  induction fuel with
  | zero =>
    intro index data ch d' c' _ i hile hilt
    omega
  | succ fuel ih =>
    intro index data ch d' c' h i hile hilt hnp
    by_cases hg : entryOff phoff pes index + pes > data.length
    · exfalso
      have hib := hnp.1
      unfold inBoundsEntry at hib
      rcases Nat.eq_or_lt_of_le hile with heq | hlt
      · rw [← heq] at hib
        omega
      · have := entryOff_mono phoff pes hlt
        omega
    · have hg' : entryOff phoff pes index + pes ≤ data.length := by omega
      have hptb : entryOff phoff pes index + 4 ≤ data.length := by omega
      have halb : entryOff phoff pes index + alignDelta ec + alignWidth ec ≤
          data.length := by omega
      have hpt := unpackFrom_pos (e := e) hptb
      have hal := unpackFrom_pos (e := e) halb
      rw [scanFrom_step ec e phoff pes index fuel data ch hg' _ _ hpt hal] at h
      rcases Nat.eq_or_lt_of_le hile with heq | hlt
      · obtain rfl : i = index := heq.symm
        have hptv : decodeB e (readBytes data (entryOff phoff pes i) 4) = PT_LOAD := by
          have hl := hnp.2.1
          unfold isLoadEntry at hl
          rw [hpt] at hl
          exact Option.some.inj hl
        have halt : decodeB e (readBytes data
            (entryOff phoff pes i + alignDelta ec) (alignWidth ec)) < PAGE_SIZE := by
          have h3 := hnp.2.2
          unfold alignValue at h3
          rw [hal] at h3
          simpa using h3
        rw [if_neg (by simp [hptv]), if_pos (Or.inr halt)] at h
        exact scanFrom_true ec e phoff pes fuel (i + 1) _ d' c' h
      · by_cases h1 : decodeB e (readBytes data (entryOff phoff pes index) 4) ≠ PT_LOAD
        · rw [if_pos h1] at h
          exact ih (index + 1) data ch d' c' h i (by omega) (by omega) hnp
        · rw [if_neg h1] at h
          by_cases h2 : decodeB e (readBytes data
              (entryOff phoff pes index + alignDelta ec) (alignWidth ec)) = 0 ∨
              decodeB e (readBytes data
                (entryOff phoff pes index + alignDelta ec) (alignWidth ec)) < PAGE_SIZE
          · rw [if_pos h2] at h
            exact scanFrom_true ec e phoff pes fuel (index + 1) _ d' c' h
          · rw [if_neg h2] at h
            exact ih (index + 1) data ch d' c' h i (by omega) (by omega) hnp

theorem scanFrom_cut (ec : Nat) (e : Endian) (phoff pes : Nat) :
    ∀ cut fuel index data ch,
      cut ≤ fuel →
      data.length < entryOff phoff pes (index + cut) + pes →
      scanFrom ec e phoff pes index fuel data ch =
        scanFrom ec e phoff pes index cut data ch := by
  intro cut
  induction cut with
  | zero =>
    intro fuel index data ch _ hout
    cases fuel with
    | zero => rfl
    | succ f =>
      rw [scanFrom_break ec e phoff pes index f data ch hout]
      rfl
  | succ c ih =>
    intro fuel index data ch hcf hout
    cases fuel with
    | zero => omega
    | succ f =>
      by_cases hg : entryOff phoff pes index + pes > data.length
      · rw [scanFrom_break ec e phoff pes index f data ch hg,
            scanFrom_break ec e phoff pes index c data ch hg]
      · have hg' : entryOff phoff pes index + pes ≤ data.length := by omega
        cases hpt : unpackFrom e 4 data (entryOff phoff pes index) with
        | none =>
          rw [scanFrom_ptype_none ec e phoff pes index f data ch hg' hpt,
              scanFrom_ptype_none ec e phoff pes index c data ch hg' hpt]
        | some pt =>
          cases hal : unpackFrom e (alignWidth ec) data
              (entryOff phoff pes index + alignDelta ec) with
          | none =>
            rw [scanFrom_align_none ec e phoff pes index f data ch pt hg' hpt hal,
                scanFrom_align_none ec e phoff pes index c data ch pt hg' hpt hal]
          | some al =>
            rw [scanFrom_step ec e phoff pes index f data ch hg' pt al hpt hal,
                scanFrom_step ec e phoff pes index c data ch hg' pt al hpt hal]
            have hadd : index + 1 + c = index + (c + 1) := by omega
            by_cases h1 : pt ≠ PT_LOAD
            · rw [if_pos h1, if_pos h1]
              apply ih f (index + 1) data ch (by omega)
              rw [hadd]
              exact hout
            · rw [if_neg h1, if_neg h1]
              by_cases h2 : al = 0 ∨ al < PAGE_SIZE
              · rw [if_pos h2, if_pos h2]
                have hb' : entryOff phoff pes index + alignDelta ec +
                    (encodeB e (alignWidth ec) PAGE_SIZE).length ≤ data.length := by
                  rw [encodeB_length]
                  exact unpackFrom_some_le hal
                have hlen2 := setBytes_length hb'
                apply ih f (index + 1) _ true (by omega)
                rw [hlen2, hadd]
                exact hout
              · rw [if_neg h2, if_neg h2]
                apply ih f (index + 1) data ch (by omega)
                rw [hadd]
                exact hout

theorem read_header_congr (d1 d2 : List Nat) (hlen : d1.length = d2.length)
    (hag : ∀ j, j < 0x2E → d1[j]? = d2[j]?)
    (hag64 : d2[EI_CLASS]? = some ELFCLASS64 → ∀ j, j < 0x3A → d1[j]? = d2[j]?) :
    read_header d1 = read_header d2 := by
  have htake : d1.take 4 = d2.take 4 := by
    apply List.ext_getElem?
    intro n
    rw [List.getElem?_take, List.getElem?_take]
    by_cases hn : n < 4
    · rw [if_pos hn, if_pos hn]
      exact hag n (by omega)
    · rw [if_neg hn, if_neg hn]
  simp only [read_header]
  rw [htake]
  by_cases hmag : d2.take 4 ≠ ELF_MAGIC
  · rw [if_pos hmag, if_pos hmag]
  · rw [if_neg hmag, if_neg hmag, hag EI_CLASS (by decide)]
    cases hc : d2[EI_CLASS]? with
    | none => rfl
    | some c =>
      dsimp only
      by_cases hcv : ¬(c = ELFCLASS32 ∨ c = ELFCLASS64)
      · rw [if_pos hcv, if_pos hcv]
      · rw [if_neg hcv, if_neg hcv]
        rw [hag EI_DATA (by decide)]
        cases hd : d2[EI_DATA]? with
        | none => rfl
        | some db =>
          dsimp only
          by_cases h64 : c = ELFCLASS64
          · rw [if_pos h64, if_pos h64]
            have hg64 := hag64 (by rw [hc, h64])
            have e1 : unpackFrom (if db = ELFDATA2LSB then Endian.little else Endian.big)
                8 d1 0x20 =
                unpackFrom (if db = ELFDATA2LSB then Endian.little else Endian.big)
                  8 d2 0x20 :=
              unpackFrom_congr hlen (fun j hj1 hj2 => hg64 j (by omega))
            have e2 : unpackFrom (if db = ELFDATA2LSB then Endian.little else Endian.big)
                2 d1 0x36 =
                unpackFrom (if db = ELFDATA2LSB then Endian.little else Endian.big)
                  2 d2 0x36 :=
              unpackFrom_congr hlen (fun j hj1 hj2 => hg64 j (by omega))
            have e3 : unpackFrom (if db = ELFDATA2LSB then Endian.little else Endian.big)
                2 d1 0x38 =
                unpackFrom (if db = ELFDATA2LSB then Endian.little else Endian.big)
                  2 d2 0x38 :=
              unpackFrom_congr hlen (fun j hj1 hj2 => hg64 j (by omega))
            rw [e1, e2, e3]
          · rw [if_neg h64, if_neg h64]
            have e1 : unpackFrom (if db = ELFDATA2LSB then Endian.little else Endian.big)
                4 d1 0x1C =
                unpackFrom (if db = ELFDATA2LSB then Endian.little else Endian.big)
                  4 d2 0x1C :=
              unpackFrom_congr hlen (fun j hj1 hj2 => hag j (by omega))
            have e2 : unpackFrom (if db = ELFDATA2LSB then Endian.little else Endian.big)
                2 d1 0x2A =
                unpackFrom (if db = ELFDATA2LSB then Endian.little else Endian.big)
                  2 d2 0x2A :=
              unpackFrom_congr hlen (fun j hj1 hj2 => hag j (by omega))
            have e3 : unpackFrom (if db = ELFDATA2LSB then Endian.little else Endian.big)
                2 d1 0x2C =
                unpackFrom (if db = ELFDATA2LSB then Endian.little else Endian.big)
                  2 d2 0x2C :=
              unpackFrom_congr hlen (fun j hj1 hj2 => hag j (by omega))
            rw [e1, e2, e3]

theorem read_header_inv (data : List Nat) (h : ElfHeader)
    (hh : read_header data = .ok h) :
    data[EI_CLASS]? = some h.elf_class ∧
    (h.elf_class = ELFCLASS32 ∨ h.elf_class = ELFCLASS64) := by
  unfold read_header at hh
  by_cases hmag : data.take 4 ≠ ELF_MAGIC
  · rw [if_pos hmag] at hh
    exact absurd hh (by simp)
  · rw [if_neg hmag] at hh
    cases hc : data[EI_CLASS]? with
    | none =>
      rw [hc] at hh
      exact absurd hh (by simp)
    | some c =>
      rw [hc] at hh
      dsimp only at hh
      by_cases hcv : ¬(c = ELFCLASS32 ∨ c = ELFCLASS64)
      · rw [if_pos hcv] at hh
        exact absurd hh (by simp)
      · rw [if_neg hcv] at hh
        cases hd : data[EI_DATA]? with
        | none =>
          rw [hd] at hh
          exact absurd hh (by simp)
        | some db =>
          rw [hd] at hh
          dsimp only at hh
          by_cases h64 : c = ELFCLASS64
          · rw [if_pos h64] at hh
            cases hp1 : unpackFrom (if db = ELFDATA2LSB then Endian.little else Endian.big)
                8 data 0x20 with
            | none =>
              rw [hp1] at hh
              exact absurd hh (by simp)
            | some x1 =>
              rw [hp1] at hh
              dsimp only at hh
              cases hp2 : unpackFrom
                  (if db = ELFDATA2LSB then Endian.little else Endian.big)
                  2 data 0x36 with
              | none =>
                rw [hp2] at hh
                exact absurd hh (by simp)
              | some x2 =>
                rw [hp2] at hh
                dsimp only at hh
                cases hp3 : unpackFrom
                    (if db = ELFDATA2LSB then Endian.little else Endian.big)
                    2 data 0x38 with
                | none =>
                  rw [hp3] at hh
                  exact absurd hh (by simp)
                | some x3 =>
                  rw [hp3] at hh
                  dsimp only at hh
                  have hh2 : (⟨c, if db = ELFDATA2LSB then Endian.little else Endian.big,
                      x1, x2, x3⟩ : ElfHeader) = h := by
                    injection hh
                  rw [← hh2]
                  exact ⟨rfl, not_not.mp hcv⟩
          · rw [if_neg h64] at hh
            cases hp1 : unpackFrom (if db = ELFDATA2LSB then Endian.little else Endian.big)
                4 data 0x1C with
            | none =>
              rw [hp1] at hh
              exact absurd hh (by simp)
            | some x1 =>
              rw [hp1] at hh
              dsimp only at hh
              cases hp2 : unpackFrom
                  (if db = ELFDATA2LSB then Endian.little else Endian.big)
                  2 data 0x2A with
              | none =>
                rw [hp2] at hh
                exact absurd hh (by simp)
              | some x2 =>
                rw [hp2] at hh
                dsimp only at hh
                cases hp3 : unpackFrom
                    (if db = ELFDATA2LSB then Endian.little else Endian.big)
                    2 data 0x2C with
                | none =>
                  rw [hp3] at hh
                  exact absurd hh (by simp)
                | some x3 =>
                  rw [hp3] at hh
                  dsimp only at hh
                  have hh2 : (⟨c, if db = ELFDATA2LSB then Endian.little else Endian.big,
                      x1, x2, x3⟩ : ElfHeader) = h := by
                    injection hh
                  rw [← hh2]
                  exact ⟨rfl, not_not.mp hcv⟩

/-! ### Concrete buffers used in counterexamples and witnesses -/

/-- 64-bit little-endian buffer with `e_phoff = 64`, `e_phentsize = 1`,
`e_phnum = 8` (overlapping entries): entry 0 is `PT_LOAD` with alignment
`2^63`, entry 7 is `PT_LOAD` with alignment `128`; patching entry 7
overwrites the top byte of entry 0's alignment field. -/
def cexBuf : List Nat :=
  patchList (List.replicate 136 0)
    [(0, [0x7f, 0x45, 0x4c, 0x46, 2, 1]), (0x20, [64, 0, 0, 0, 0, 0, 0, 0]),
     (0x36, [1, 0]), (0x38, [8, 0]), (64, [1, 0, 0, 0]), (71, [1, 0, 0, 0]),
     (127, [128])]

/-- 64-bit little-endian buffer with `e_phoff = 0`, `e_phentsize = 64`,
`e_phnum = 2`: entry 1 is an in-bounds `PT_LOAD` entry with alignment 0, but
the zero table offset makes `apply_alignment` stop before scanning. -/
def cexBufZ : List Nat :=
  patchList (List.replicate 128 0)
    [(0, [0x7f, 0x45, 0x4c, 0x46, 2, 1]), (0x36, [64, 0]), (0x38, [2, 0]),
     (0x40, [1, 0, 0, 0])]

/-- 32-bit little-endian buffer whose program-header table starts at offset
15, inside the ELF header itself: patching entry 0's alignment field
overwrites the `e_phnum` field, so a second run scans 64 entries and patches
a new one. -/
def cexBufH : List Nat :=
  patchList (List.replicate 80 0)
    [(0, [0x7f, 0x45, 0x4c, 0x46, 1, 1]), (15, [1, 0, 0, 0]), (0x1C, [15, 0, 0, 0]),
     (0x2A, [32, 0]), (0x2C, [1, 0]), (0x2F, [1, 0, 0, 0])]

/-- 64-bit little-endian buffer with `e_phentsize = 8`: entry 0 passes the
bounds guard but its alignment sub-offset `0x38` lies outside the buffer;
the entry is not `PT_LOAD` (type tag 0). -/
def cexBuf4 : List Nat :=
  patchList (List.replicate 72 0)
    [(0, [0x7f, 0x45, 0x4c, 0x46, 2, 1]), (0x20, [64, 0, 0, 0, 0, 0, 0, 0]),
     (0x36, [8, 0]), (0x38, [1, 0])]

/-- Like `cexBuf4` but the truncated entry is `PT_LOAD`. -/
def cexBuf9w : List Nat := patchList cexBuf4 [(64, [1, 0, 0, 0])]

/-- Well-formed 32-bit little-endian buffer: one `PT_LOAD` entry at offset
52 with `e_phentsize = 32` and alignment 0. -/
def witBuf32 : List Nat :=
  patchList (List.replicate 84 0)
    [(0, [0x7f, 0x45, 0x4c, 0x46, 1, 1]), (0x1C, [52, 0, 0, 0]), (0x2A, [32, 0]),
     (0x2C, [1, 0]), (52, [1, 0, 0, 0])]

/-- `witBuf32` after patching: the 4-byte alignment field at offset 80 now
holds 16384 little-endian. -/
def witBuf32out : List Nat := patchList witBuf32 [(80, [0, 64, 0, 0])]

/-- Like `witBuf32` but the entry's type tag is 6 (not `PT_LOAD`). -/
def witBuf32n : List Nat :=
  patchList (List.replicate 84 0)
    [(0, [0x7f, 0x45, 0x4c, 0x46, 1, 1]), (0x1C, [52, 0, 0, 0]), (0x2A, [32, 0]),
     (0x2C, [1, 0]), (52, [6, 0, 0, 0])]

/-- 32-bit little-endian buffer with `e_phnum = 0`. -/
def witBuf8 : List Nat :=
  patchList (List.replicate 46 0)
    [(0, [0x7f, 0x45, 0x4c, 0x46, 1, 1]), (0x1C, [52, 0, 0, 0]), (0x2A, [32, 0])]

/-- Six bytes: valid magic and 64-bit class byte, but shorter than the
fixed header-field offsets. -/
def shortBuf : List Nat := [0x7f, 0x45, 0x4c, 0x46, 2, 1]

/-! ### Claim theorems -/

/-- C5: a buffer whose first four bytes differ from the ELF magic makes
`read_header` fail with `notElf`; a buffer with the magic whose class byte
is neither `ELFCLASS32` nor `ELFCLASS64` makes it fail with
`unsupportedClass`; in both cases no mutation is attempted and the file on
disk stays byte-identical (no write occurs). -/
theorem C5_header_validation (data : List Nat) :
    (data.take 4 ≠ ELF_MAGIC →
      read_header data = .error .notElf ∧
      apply_alignment_disk data = ⟨data, false, .error .notElf⟩) ∧
    (∀ c, data.take 4 = ELF_MAGIC → data[EI_CLASS]? = some c →
      ¬(c = ELFCLASS32 ∨ c = ELFCLASS64) →
      read_header data = .error (.unsupportedClass c) ∧
      apply_alignment_disk data = ⟨data, false, .error (.unsupportedClass c)⟩) := by
  constructor
  · intro hm
    have h1 : read_header data = .error .notElf := by
      unfold read_header
      rw [if_pos hm]
    refine ⟨h1, ?_⟩
    unfold apply_alignment_disk apply_alignment_pure
    rw [h1]
  · intro c hm hc hcv
    have h1 : read_header data = .error (.unsupportedClass c) := by
      unfold read_header
      rw [if_neg (by simp [hm]), hc]
      dsimp only
      rw [if_pos hcv]
    refine ⟨h1, ?_⟩
    unfold apply_alignment_disk apply_alignment_pure
    rw [h1]

theorem C5_header_validation_witness :
    (read_header [0, 0, 0, 0] = .error .notElf ∧
      apply_alignment_disk [0, 0, 0, 0] = ⟨[0, 0, 0, 0], false, .error .notElf⟩) ∧
    (read_header [0x7f, 0x45, 0x4c, 0x46, 9] = .error (.unsupportedClass 9) ∧
      apply_alignment_disk [0x7f, 0x45, 0x4c, 0x46, 9] =
        ⟨[0x7f, 0x45, 0x4c, 0x46, 9], false, .error (.unsupportedClass 9)⟩) :=
  ⟨(C5_header_validation [0, 0, 0, 0]).1 (by decide),
   (C5_header_validation [0x7f, 0x45, 0x4c, 0x46, 9]).2 9 (by decide) (by decide)
     (by decide)⟩

/-- C8: a successfully parsed header whose table offset, entry size, or
entry count is zero makes `apply_alignment` return `changed = false` at
once, with no mutation, no error, and no filesystem write. -/
theorem C8_zero_descriptor (data : List Nat) (h : ElfHeader)
    (hh : read_header data = .ok h)
    (hz : h.e_phoff = 0 ∨ h.e_phentsize = 0 ∨ h.e_phnum = 0) :
    apply_alignment_pure data = .ok (data, false) ∧
    apply_alignment_disk data = ⟨data, false, .ok false⟩ := by
  have h1 : apply_alignment_pure data = .ok (data, false) := by
    unfold apply_alignment_pure
    rw [hh]
    dsimp only
    rw [if_pos hz]
  refine ⟨h1, ?_⟩
  unfold apply_alignment_disk
  rw [h1]
  rfl

theorem C8_zero_descriptor_witness :
    apply_alignment_pure witBuf8 = .ok (witBuf8, false) ∧
    apply_alignment_disk witBuf8 = ⟨witBuf8, false, .ok false⟩ :=
  C8_zero_descriptor witBuf8 ⟨ELFCLASS32, Endian.little, 52, 32, 0⟩ (by decide)
    (by decide)

/-- C6: if entry `i` overflows the buffer (its offset plus the entry size
exceeds the buffer length), the scan over any `fuel ≥ i` entries equals the
scan over just the first `i` entries: iteration stops at `i` without an
error and the earlier entries are processed normally. -/
theorem C6_bounds_guard (ec : Nat) (e : Endian) (phoff pes : Nat) (data : List Nat)
    (ch : Bool) (i fuel : Nat) (hif : i ≤ fuel)
    (hout : data.length < entryOff phoff pes i + pes) :
    scanFrom ec e phoff pes 0 fuel data ch = scanFrom ec e phoff pes 0 i data ch := by
  apply scanFrom_cut ec e phoff pes i fuel 0 data ch hif
  rw [Nat.zero_add]
  exact hout

theorem C6_bounds_guard_witness :
    scanFrom ELFCLASS32 Endian.little 52 32 0 5 witBuf32 false =
      scanFrom ELFCLASS32 Endian.little 52 32 0 1 witBuf32 false :=
  C6_bounds_guard ELFCLASS32 Endian.little 52 32 witBuf32 false 1 5 (by decide)
    (by decide)

/-- C10: a buffer that starts with the ELF magic and a recognized class
byte but is shorter than the fixed header-field offsets (`0x3A` for 64-bit,
`0x2E` for 32-bit) makes `read_header` fail with a generic lookup/unpacking
error — never `notElf` or `unsupportedClass` — and `main` still catches it,
exits with code 2, and leaves the file unmodified. -/
theorem C10_short_header (data : List Nat) (c : Nat)
    (hm : data.take 4 = ELF_MAGIC)
    (hc : data[EI_CLASS]? = some c)
    (hcv : c = ELFCLASS32 ∨ c = ELFCLASS64)
    (hlen : data.length < (if c = ELFCLASS64 then 0x3A else 0x2E)) :
    (read_header data = .error .indexError ∨
      read_header data = .error .structError) ∧
    read_header data ≠ .error .notElf ∧
    (∀ b, read_header data ≠ .error (.unsupportedClass b)) ∧
    (∀ s t, (main_run [s, t] data).exitCode = 2) ∧
    (apply_alignment_disk data).disk = data ∧
    (apply_alignment_disk data).wrote = false := by
  have herr : read_header data = .error .indexError ∨
      read_header data = .error .structError := by
    unfold read_header
    rw [if_neg (by simp [hm]), hc]
    dsimp only
    rw [if_neg (not_not_intro hcv)]
    cases hd : data[EI_DATA]? with
    | none =>
      left
      rfl
    | some db =>
      dsimp only
      rcases hcv with h32 | h64
      · rw [if_neg (by rw [h32]; decide)]
        have hlen' : data.length < 0x2E := by
          rw [if_neg (by rw [h32]; decide)] at hlen
          exact hlen
        cases hp1 : unpackFrom (if db = ELFDATA2LSB then Endian.little else Endian.big)
            4 data 0x1C with
        | none =>
          right
          rfl
        | some x1 =>
          dsimp only
          cases hp2 : unpackFrom
              (if db = ELFDATA2LSB then Endian.little else Endian.big)
              2 data 0x2A with
          | none =>
            right
            rfl
          | some x2 =>
            dsimp only
            cases hp3 : unpackFrom
                (if db = ELFDATA2LSB then Endian.little else Endian.big)
                2 data 0x2C with
            | none =>
              right
              rfl
            | some x3 =>
              exfalso
              have := unpackFrom_some_le hp3
              omega
      · rw [if_pos h64]
        have hlen' : data.length < 0x3A := by
          rw [if_pos h64] at hlen
          exact hlen
        cases hp1 : unpackFrom (if db = ELFDATA2LSB then Endian.little else Endian.big)
            8 data 0x20 with
        | none =>
          right
          rfl
        | some x1 =>
          dsimp only
          cases hp2 : unpackFrom
              (if db = ELFDATA2LSB then Endian.little else Endian.big)
              2 data 0x36 with
          | none =>
            right
            rfl
          | some x2 =>
            dsimp only
            cases hp3 : unpackFrom
                (if db = ELFDATA2LSB then Endian.little else Endian.big)
                2 data 0x38 with
            | none =>
              right
              rfl
            | some x3 =>
              exfalso
              have := unpackFrom_some_le hp3
              omega
  obtain ⟨err, herr2, hne1, hne2⟩ : ∃ err, read_header data = .error err ∧
      err ≠ PatchError.notElf ∧ ∀ b, err ≠ PatchError.unsupportedClass b := by
    rcases herr with hq | hq
    · exact ⟨_, hq, by simp, fun b => by simp⟩
    · exact ⟨_, hq, by simp, fun b => by simp⟩
  have hap : apply_alignment_pure data = .error err := by
    unfold apply_alignment_pure
    rw [herr2]
  refine ⟨herr, ?_, ?_, ?_, ?_, ?_⟩
  · rw [herr2]
    simp only [ne_eq, Except.error.injEq]
    exact hne1
  · intro b
    rw [herr2]
    simp only [ne_eq, Except.error.injEq]
    exact hne2 b
  · intro s t
    unfold main_run
    rw [if_neg (by simp)]
    dsimp only
    rw [hap]
  · unfold apply_alignment_disk
    rw [hap]
  · unfold apply_alignment_disk
    rw [hap]

theorem C10_short_header_witness :
    (read_header shortBuf = .error .indexError ∨
      read_header shortBuf = .error .structError) ∧
    (main_run ["ensure_16k_page.py", "lib.so"] shortBuf).exitCode = 2 ∧
    (apply_alignment_disk shortBuf).disk = shortBuf :=
  ⟨(C10_short_header shortBuf 2 (by decide) (by decide) (by decide) (by decide)).1,
   (C10_short_header shortBuf 2 (by decide) (by decide) (by decide)
      (by decide)).2.2.2.1 "ensure_16k_page.py" "lib.so",
   (C10_short_header shortBuf 2 (by decide) (by decide) (by decide)
      (by decide)).2.2.2.2.1⟩

/-- C7: `main`'s exit-code contract — wrong argument count gives exit 1 and
a usage line on the error stream; a successful run that changed the file
gives exit 0 and a confirmation naming the path and the new alignment; a
successful run without change gives exit 0 and no output; any exception is
caught at this boundary, a diagnostic naming the path and the reason goes
to the error stream, and the exit code is 2. -/
theorem C7_exit_codes (argv : List String) (data : List Nat) :
    (argv.length ≠ 2 →
      main_run argv data = ⟨1, [], ["Usage: ensure_16k_page.py <path-to-so>"]⟩) ∧
    (∀ p q, argv = [p, q] →
      (∀ d, apply_alignment_pure data = .ok (d, true) →
        main_run argv data = ⟨0, [s!"Aligned {q} to {PAGE_SIZE} bytes"], []⟩) ∧
      (∀ d, apply_alignment_pure data = .ok (d, false) →
        main_run argv data = ⟨0, [], []⟩) ∧
      (∀ err, apply_alignment_pure data = .error err →
        main_run argv data =
          ⟨2, [], [s!"[ensure_16k_page] Skipped {q}: {excMessage err}"]⟩)) := by
  constructor
  · intro hne
    unfold main_run
    rw [if_pos hne]
  · intro p q hargv
    subst hargv
    refine ⟨?_, ?_, ?_⟩
    · intro d hrun
      unfold main_run
      rw [if_neg (by simp)]
      dsimp only
      rw [hrun]
      rfl
    · intro d hrun
      unfold main_run
      rw [if_neg (by simp)]
      dsimp only
      rw [hrun]
      rfl
    · intro err hrun
      unfold main_run
      rw [if_neg (by simp)]
      dsimp only
      rw [hrun]
      rfl

theorem C7_exit_codes_witness :
    main_run [] [] = ⟨1, [], ["Usage: ensure_16k_page.py <path-to-so>"]⟩ ∧
    main_run ["ensure_16k_page.py", "lib.so"] witBuf32 =
      ⟨0, ["Aligned lib.so to 16384 bytes"], []⟩ ∧
    main_run ["ensure_16k_page.py", "lib.so"] witBuf32n = ⟨0, [], []⟩ ∧
    main_run ["ensure_16k_page.py", "lib.so"] cexBuf4 =
      ⟨2, [],
        ["[ensure_16k_page] Skipped lib.so: unpack_from requires a buffer"]⟩ :=
  ⟨(C7_exit_codes [] []).1 (by decide),
   ((C7_exit_codes ["ensure_16k_page.py", "lib.so"] witBuf32).2 "ensure_16k_page.py"
      "lib.so" rfl).1 witBuf32out (by decide),
   ((C7_exit_codes ["ensure_16k_page.py", "lib.so"] witBuf32n).2 "ensure_16k_page.py"
      "lib.so" rfl).2.1 witBuf32n (by decide),
   ((C7_exit_codes ["ensure_16k_page.py", "lib.so"] cexBuf4).2 "ensure_16k_page.py"
      "lib.so" rfl).2.2 PatchError.structError (by decide)⟩

/-- C9: the bounds guard checks only the declared entry size, so a
`PT_LOAD` entry that passes the guard but whose alignment sub-offset plus
field width exceeds the buffer makes the scan raise `structError` instead
of skipping the entry; and when the write does land in the buffer it can
touch bytes past the declared entry extent (byte 128 of `cexBuf` lies
beyond every declared one-byte entry yet is rewritten). -/
theorem C9_truncated_entry :
    (∀ (ec : Nat) (e : Endian) (phoff pes index fuel : Nat) (data : List Nat)
        (ch : Bool),
      entryOff phoff pes index + pes ≤ data.length →
      unpackFrom e 4 data (entryOff phoff pes index) = some PT_LOAD →
      data.length < entryOff phoff pes index + alignDelta ec + alignWidth ec →
      scanFrom ec e phoff pes index (fuel + 1) data ch = .error .structError) ∧
    apply_alignment_pure cexBuf9w = .error .structError ∧
    (apply_alignment_pure cexBuf).map (fun r => r.1.getD 128 0) = .ok 64 ∧
    cexBuf.getD 128 0 = 0 ∧
    entryOff 64 1 7 + 1 ≤ 128 := by
  refine ⟨?_, by decide, by decide, by decide, by decide⟩
  intro ec e phoff pes index fuel data ch hg hpt hoob
  apply scanFrom_align_none ec e phoff pes index fuel data ch PT_LOAD hg hpt
  unfold unpackFrom
  rw [if_neg (by omega)]

theorem C9_truncated_entry_witness :
    scanFrom ELFCLASS64 Endian.little 64 8 0 1 cexBuf9w false = .error .structError :=
  C9_truncated_entry.1 ELFCLASS64 Endian.little 64 8 0 0 cexBuf9w false (by decide)
    (by decide) (by decide)

/-- C1 counterexample.  First conjunct (`cexBuf`, overlapping one-byte
entries): entry 0 is an in-bounds `PT_LOAD` entry whose alignment `2^63` is
already ≥ 16384, yet after the run its alignment field reads 0 — the value
did not stay equal to its value before the run.  Second conjunct
(`cexBufZ`, zero table offset): entry 1 is an in-bounds `PT_LOAD` entry
with alignment 0, yet the run reports `changed = false` and overwrites
nothing. -/
theorem C1_counterexample :
    (read_header cexBuf = .ok ⟨ELFCLASS64, Endian.little, 64, 1, 8⟩ ∧
      inBoundsEntry 64 1 cexBuf.length 0 ∧
      isLoadEntry Endian.little 64 1 cexBuf 0 ∧
      alignValue ELFCLASS64 Endian.little 64 1 cexBuf 0 = some 9223372036854775808 ∧
      PAGE_SIZE ≤ 9223372036854775808 ∧
      (apply_alignment_pure cexBuf).map
        (fun r => alignValue ELFCLASS64 Endian.little 64 1 r.1 0) = .ok (some 0)) ∧
    (read_header cexBufZ = .ok ⟨ELFCLASS64, Endian.little, 0, 64, 2⟩ ∧
      inBoundsEntry 0 64 cexBufZ.length 1 ∧
      isLoadEntry Endian.little 0 64 cexBufZ 1 ∧
      alignValue ELFCLASS64 Endian.little 0 64 cexBufZ 1 = some 0 ∧
      apply_alignment_pure cexBufZ = .ok (cexBufZ, false)) := by
  constructor
  · exact ⟨by decide, by decide, by decide, by decide, by decide, by decide⟩
  · exact ⟨by decide, by decide, by decide, by decide, by decide⟩

/-- C1 (amended): provided the program-header table offset is nonzero and
the alignment field lies inside the declared entry
(`alignDelta + alignWidth ≤ e_phentsize`, which makes the regions the scan
touches pairwise disjoint), every in-bounds `PT_LOAD` entry whose alignment
is below 16384 has its field overwritten in place with 16384 (same width
and endianness) and the run reports `changed = true`; an entry whose
alignment is already ≥ 16384 reads back exactly its old value after the
run. -/
theorem C1_patch_rule (data : List Nat) (h : ElfHeader)
    (hh : read_header data = .ok h)
    (hw : alignDelta h.elf_class + alignWidth h.elf_class ≤ h.e_phentsize)
    (hoff : h.e_phoff ≠ 0)
    (i a : Nat) (hi : i < h.e_phnum)
    (hib : inBoundsEntry h.e_phoff h.e_phentsize data.length i)
    (hload : isLoadEntry h.endian h.e_phoff h.e_phentsize data i)
    (ha : alignValue h.elf_class h.endian h.e_phoff h.e_phentsize data i = some a)
    (d' : List Nat) (c' : Bool)
    (hrun : apply_alignment_pure data = .ok (d', c')) :
    (a < PAGE_SIZE →
      alignValue h.elf_class h.endian h.e_phoff h.e_phentsize d' i = some PAGE_SIZE ∧
      c' = true) ∧
    (PAGE_SIZE ≤ a →
      alignValue h.elf_class h.endian h.e_phoff h.e_phentsize d' i = some a) := by
  have hd4 := four_le_alignDelta h.elf_class
  have hp0 : (0 : Nat) < PAGE_SIZE := by
    unfold PAGE_SIZE
    omega
  have hpes : h.e_phentsize ≠ 0 := by omega
  have hnum : h.e_phnum ≠ 0 := by omega
  have hscan : scanFrom h.elf_class h.endian h.e_phoff h.e_phentsize 0 h.e_phnum
      data false = .ok (d', c') := by
    unfold apply_alignment_pure at hrun
    rw [hh] at hrun
    dsimp only at hrun
    rw [if_neg (by simp [hoff, hpes, hnum])] at hrun
    exact hrun
  constructor
  · intro hlt
    constructor
    · have hres := scanFrom_align_result h.elf_class h.endian h.e_phoff h.e_phentsize
        hw h.e_phnum 0 data false d' c' i a hscan (by omega) (by omega) hib hload ha
      rw [if_pos (Or.inr hlt)] at hres
      exact hres
    · exact scanFrom_needs_true h.elf_class h.endian h.e_phoff h.e_phentsize hw
        h.e_phnum 0 data false d' c' hscan i (by omega) (by omega)
        ⟨hib, hload, by rw [ha]; simpa using hlt⟩
  · intro hge
    have hres := scanFrom_align_result h.elf_class h.endian h.e_phoff h.e_phentsize
      hw h.e_phnum 0 data false d' c' i a hscan (by omega) (by omega) hib hload ha
    rw [if_neg (by omega)] at hres
    exact hres

theorem C1_patch_rule_witness :
    (0 : Nat) < PAGE_SIZE ∧
    (alignValue ELFCLASS32 Endian.little 52 32 witBuf32out 0 = some PAGE_SIZE ∧
      (true : Bool) = true) :=
  ⟨by decide,
   (C1_patch_rule witBuf32 ⟨ELFCLASS32, Endian.little, 52, 32, 1⟩ (by decide)
      (by decide) (by decide) 0 0 (by decide) (by decide) (by decide) (by decide)
      witBuf32out true (by decide)).1 (by decide)⟩

/-- C3 counterexample.  First conjunct (`cexBuf`): entry 0 is an in-bounds
`PT_LOAD` entry that is not among the K entries needing a patch, yet its
alignment field's value changes during the run (from `2^63` to 0), so more
than the K alignment fields change.  Second conjunct (`cexBufZ`): entry 1
needs a patch (K = 1) yet the run changes nothing at all. -/
theorem C3_counterexample :
    (¬ needsPatch ELFCLASS64 Endian.little 64 1 cexBuf 0 ∧
      isLoadEntry Endian.little 64 1 cexBuf 0 ∧
      inBoundsEntry 64 1 cexBuf.length 0 ∧
      alignValue ELFCLASS64 Endian.little 64 1 cexBuf 0 = some 9223372036854775808 ∧
      (apply_alignment_pure cexBuf).map
        (fun r => alignValue ELFCLASS64 Endian.little 64 1 r.1 0) ≠
        .ok (some 9223372036854775808)) ∧
    (needsPatch ELFCLASS64 Endian.little 0 64 cexBufZ 1 ∧
      apply_alignment_pure cexBufZ = .ok (cexBufZ, false)) := by
  constructor
  · exact ⟨by decide, by decide, by decide, by decide, by decide⟩
  · exact ⟨by decide, by decide⟩

/-- C3 (amended): provided the table offset is nonzero and the alignment
field lies inside the declared entry, the run preserves the buffer length,
leaves every byte outside the alignment fields of the K entries needing a
patch unchanged (no entry is reordered, inserted, or removed), and each of
those K alignment fields reads back 16384 afterwards, with
`changed = true`. -/
theorem C3_minimal_mutation (data : List Nat) (h : ElfHeader)
    (hh : read_header data = .ok h)
    (hw : alignDelta h.elf_class + alignWidth h.elf_class ≤ h.e_phentsize)
    (hoff : h.e_phoff ≠ 0)
    (d' : List Nat) (c' : Bool)
    (hrun : apply_alignment_pure data = .ok (d', c')) :
    d'.length = data.length ∧
    (∀ j, (∀ m, m < h.e_phnum →
        ¬(needsPatch h.elf_class h.endian h.e_phoff h.e_phentsize data m ∧
          alignRegionAt h.elf_class h.e_phoff h.e_phentsize m j)) →
      d'[j]? = data[j]?) ∧
    (∀ m, m < h.e_phnum →
      needsPatch h.elf_class h.endian h.e_phoff h.e_phentsize data m →
      alignValue h.elf_class h.endian h.e_phoff h.e_phentsize d' m = some PAGE_SIZE ∧
      c' = true) := by
  have hd4 := four_le_alignDelta h.elf_class
  have hp0 : (0 : Nat) < PAGE_SIZE := by
    unfold PAGE_SIZE
    omega
  have hpes : h.e_phentsize ≠ 0 := by omega
  by_cases hz : h.e_phoff = 0 ∨ h.e_phentsize = 0 ∨ h.e_phnum = 0
  · have hnum : h.e_phnum = 0 := by
      rcases hz with hq | hq | hq
      · exact absurd hq hoff
      · exact absurd hq hpes
      · exact hq
    have hrun0 : apply_alignment_pure data = .ok (data, false) := by
      unfold apply_alignment_pure
      rw [hh]
      dsimp only
      rw [if_pos hz]
    rw [hrun0] at hrun
    simp only [Except.ok.injEq, Prod.mk.injEq] at hrun
    refine ⟨by rw [← hrun.1], fun j _ => by rw [← hrun.1], fun m hm _ => ?_⟩
    rw [hnum] at hm
    omega
  · have hnum : h.e_phnum ≠ 0 := by
      intro hq
      exact hz (Or.inr (Or.inr hq))
    have hscan : scanFrom h.elf_class h.endian h.e_phoff h.e_phentsize 0 h.e_phnum
        data false = .ok (d', c') := by
      unfold apply_alignment_pure at hrun
      rw [hh] at hrun
      dsimp only at hrun
      rw [if_neg hz] at hrun
      exact hrun
    refine ⟨scanFrom_length h.elf_class h.endian h.e_phoff h.e_phentsize h.e_phnum
        0 data false d' c' hscan, ?_, ?_⟩
    · intro j hj
      exact scanFrom_frame h.elf_class h.endian h.e_phoff h.e_phentsize hw h.e_phnum
        0 data false d' c' hscan j (fun m _ hm2 => hj m (by omega))
    · intro m hm hnp
      obtain ⟨hib, hload, hlt⟩ := hnp
      obtain ⟨a, ha⟩ : ∃ a, alignValue h.elf_class h.endian h.e_phoff h.e_phentsize
          data m = some a := by
        unfold inBoundsEntry at hib
        exact ⟨_, unpackFrom_pos (by omega)⟩
      have hlt2 : a < PAGE_SIZE := by
        rw [ha] at hlt
        simpa using hlt
      constructor
      · have hres := scanFrom_align_result h.elf_class h.endian h.e_phoff
          h.e_phentsize hw h.e_phnum 0 data false d' c' m a hscan (by omega)
          (by omega) hib hload ha
        rw [if_pos (Or.inr hlt2)] at hres
        exact hres
      · exact scanFrom_needs_true h.elf_class h.endian h.e_phoff h.e_phentsize hw
          h.e_phnum 0 data false d' c' hscan m (by omega) (by omega)
          ⟨hib, hload, by rw [ha]; simpa using hlt2⟩

theorem C3_minimal_mutation_witness :
    witBuf32out.length = witBuf32.length ∧
    witBuf32out[0]? = witBuf32[0]? ∧
    (alignValue ELFCLASS32 Endian.little 52 32 witBuf32out 0 = some PAGE_SIZE ∧
      (true : Bool) = true) := by
  have h := C3_minimal_mutation witBuf32 ⟨ELFCLASS32, Endian.little, 52, 32, 1⟩
    (by decide) (by decide) (by decide) witBuf32out true (by decide)
  exact ⟨h.1, h.2.1 0 (by decide), h.2.2 0 (by decide) (by decide)⟩

/-- C4 counterexample: `cexBuf4`'s entry 0 is in bounds and its type tag is
0 (not `PT_LOAD`), yet `apply_alignment` raises `structError` because the
scanner reads the alignment field (out of bounds here) before checking the
type tag — the entry is not skipped without an alignment read. -/
theorem C4_counterexample :
    read_header cexBuf4 = .ok ⟨ELFCLASS64, Endian.little, 64, 8, 1⟩ ∧
    inBoundsEntry 64 8 cexBuf4.length 0 ∧
    unpackFrom Endian.little 4 cexBuf4 (entryOff 64 8 0) = some 0 ∧
    (0 : Nat) ≠ PT_LOAD ∧
    apply_alignment_pure cexBuf4 = .error .structError := by
  exact ⟨by decide, by decide, by decide, by decide, by decide⟩

/-- C4 (amended): the scanner reads both the type tag and the alignment
field of every in-bounds entry (so a truncated alignment field raises an
error even for a non-`PT_LOAD` entry — see the counterexample); but an
entry whose type tag differs from `PT_LOAD` is never written: provided the
alignment field lies inside the declared entry, every byte of such an
entry is unchanged by the run. -/
theorem C4_nonload_unmodified (data : List Nat) (h : ElfHeader)
    (hh : read_header data = .ok h)
    (hw : alignDelta h.elf_class + alignWidth h.elf_class ≤ h.e_phentsize)
    (d' : List Nat) (c' : Bool)
    (hrun : apply_alignment_pure data = .ok (d', c'))
    (m : Nat)
    (hnl : ¬ isLoadEntry h.endian h.e_phoff h.e_phentsize data m) :
    ∀ j, entryOff h.e_phoff h.e_phentsize m ≤ j →
      j < entryOff h.e_phoff h.e_phentsize m + h.e_phentsize →
      d'[j]? = data[j]? := by
  have hd4 := four_le_alignDelta h.elf_class
  have hwp := alignWidth_pos h.elf_class
  intro j hj1 hj2
  by_cases hz : h.e_phoff = 0 ∨ h.e_phentsize = 0 ∨ h.e_phnum = 0
  · have hrun0 : apply_alignment_pure data = .ok (data, false) := by
      unfold apply_alignment_pure
      rw [hh]
      dsimp only
      rw [if_pos hz]
    rw [hrun0] at hrun
    simp only [Except.ok.injEq, Prod.mk.injEq] at hrun
    rw [← hrun.1]
  · have hscan : scanFrom h.elf_class h.endian h.e_phoff h.e_phentsize 0 h.e_phnum
        data false = .ok (d', c') := by
      unfold apply_alignment_pure at hrun
      rw [hh] at hrun
      dsimp only at hrun
      rw [if_neg hz] at hrun
      exact hrun
    apply scanFrom_frame h.elf_class h.endian h.e_phoff h.e_phentsize hw h.e_phnum
      0 data false d' c' hscan j
    intro m' _ _ hand
    by_cases hmm : m' = m
    · rw [hmm] at hand
      exact hnl hand.1.2.1
    · have hr := hand.2
      unfold alignRegionAt at hr
      rcases @regionsDisjoint h.e_phoff h.e_phentsize m m' 0 h.e_phentsize
          (alignDelta h.elf_class) (alignWidth h.elf_class)
          (fun hq => hmm hq.symm) (by omega) hw with hd | hd
      · omega
      · omega

theorem C4_nonload_unmodified_witness : witBuf32n[52]? = witBuf32n[52]? :=
  C4_nonload_unmodified witBuf32n ⟨ELFCLASS32, Endian.little, 52, 32, 1⟩ (by decide)
    (by decide) witBuf32n false (by decide) 0 (by decide) 52 (by decide) (by decide)

/-- C2 counterexample.  First conjunct (`cexBuf`, overlapping one-byte
entries): the first run succeeds with `changed = true`, and the second run
on its output again reports `changed = true` — not `false`.  Second
conjunct (`cexBufH`): the alignment field fits inside the declared entry
(`alignDelta + alignWidth ≤ 32`), but the table overlaps the ELF header, the
patch rewrites `e_phnum`, and the second run again reports
`changed = true`. -/
theorem C2_counterexample :
    ((apply_alignment_pure cexBuf).map (fun r => r.2) = .ok true ∧
      (apply_alignment_pure cexBuf).bind
        (fun r => (apply_alignment_pure r.1).map (fun s => s.2)) = .ok true) ∧
    (read_header cexBufH = .ok ⟨ELFCLASS32, Endian.little, 15, 32, 1⟩ ∧
      alignDelta ELFCLASS32 + alignWidth ELFCLASS32 ≤ 32 ∧
      (apply_alignment_pure cexBufH).map (fun r => r.2) = .ok true ∧
      (apply_alignment_pure cexBufH).bind
        (fun r => (apply_alignment_pure r.1).map (fun s => s.2)) = .ok true) := by
  constructor
  · exact ⟨by decide, by decide⟩
  · exact ⟨by decide, by decide, by decide, by decide⟩

/-- C2 (amended): provided the alignment field lies inside the declared
entry and the program-header table does not overlap the header fields that
`read_header` consumes (`headerEnd ≤ e_phoff`), a second application of the
patch to a successful first run's output reports `changed = false`, leaves
the buffer byte-identical, and performs no filesystem write. -/
theorem C2_idempotent (data : List Nat) (h : ElfHeader)
    (hh : read_header data = .ok h)
    (hw : alignDelta h.elf_class + alignWidth h.elf_class ≤ h.e_phentsize)
    (hclear : headerEnd h.elf_class ≤ h.e_phoff)
    (d1 : List Nat) (c1 : Bool)
    (hrun : apply_alignment_pure data = .ok (d1, c1)) :
    apply_alignment_pure d1 = .ok (d1, false) ∧
    (apply_alignment_disk d1).wrote = false ∧
    (apply_alignment_disk d1).disk = d1 := by
  have hd4 := four_le_alignDelta h.elf_class
  have hwp := alignWidth_pos h.elf_class
  have h2e : 0x2E ≤ headerEnd h.elf_class := by
    unfold headerEnd
    split <;> omega
  by_cases hz : h.e_phoff = 0 ∨ h.e_phentsize = 0 ∨ h.e_phnum = 0
  · have hrun0 : apply_alignment_pure data = .ok (data, false) := by
      unfold apply_alignment_pure
      rw [hh]
      dsimp only
      rw [if_pos hz]
    rw [hrun0] at hrun
    simp only [Except.ok.injEq, Prod.mk.injEq] at hrun
    obtain ⟨h1, _⟩ := hrun
    refine ⟨by rw [← h1]; exact hrun0, ?_, ?_⟩
    · unfold apply_alignment_disk
      rw [← h1, hrun0]
    · unfold apply_alignment_disk
      rw [← h1, hrun0]
      rfl
  · have hscan : scanFrom h.elf_class h.endian h.e_phoff h.e_phentsize 0 h.e_phnum
        data false = .ok (d1, c1) := by
      unfold apply_alignment_pure at hrun
      rw [hh] at hrun
      dsimp only at hrun
      rw [if_neg hz] at hrun
      exact hrun
    have hlen1 : d1.length = data.length :=
      scanFrom_length h.elf_class h.endian h.e_phoff h.e_phentsize h.e_phnum 0 data
        false d1 c1 hscan
    have hagAll : ∀ j, j < headerEnd h.elf_class → d1[j]? = data[j]? := by
      intro j hj
      apply scanFrom_frame h.elf_class h.endian h.e_phoff h.e_phentsize hw h.e_phnum
        0 data false d1 c1 hscan j
      intro m _ _ hand
      have hr := hand.2
      unfold alignRegionAt at hr
      have hm0 : h.e_phoff ≤ entryOff h.e_phoff h.e_phentsize m := by
        unfold entryOff
        omega
      omega
    have hinv := read_header_inv data h hh
    have hhd1 : read_header d1 = read_header data := by
      apply read_header_congr d1 data hlen1
      · intro j hj
        exact hagAll j (by omega)
      · intro hcls64 j hj
        have hcl : h.elf_class = ELFCLASS64 := by
          rw [hinv.1] at hcls64
          exact Option.some.inj hcls64
        have hend : headerEnd h.elf_class = 0x3A := by
          unfold headerEnd
          rw [if_pos hcl]
        exact hagAll j (by omega)
    have hnp1 : ∀ m, 0 ≤ m → m < 0 + h.e_phnum →
        ¬ needsPatch h.elf_class h.endian h.e_phoff h.e_phentsize d1 m := by
      intro m _ hm hnp
      obtain ⟨hib2, hload2, hlt2⟩ := hnp
      have hib : inBoundsEntry h.e_phoff h.e_phentsize data.length m := by
        unfold inBoundsEntry at hib2 ⊢
        rw [hlen1] at hib2
        exact hib2
      have halb : entryOff h.e_phoff h.e_phentsize m + alignDelta h.elf_class +
          alignWidth h.elf_class ≤ data.length := by
        unfold inBoundsEntry at hib
        omega
      have hptagree : unpackFrom h.endian 4 d1 (entryOff h.e_phoff h.e_phentsize m) =
          unpackFrom h.endian 4 data (entryOff h.e_phoff h.e_phentsize m) := by
        apply unpackFrom_congr hlen1
        intro j hj1 hj2
        apply scanFrom_frame h.elf_class h.endian h.e_phoff h.e_phentsize hw
          h.e_phnum 0 data false d1 c1 hscan j
        intro m' _ _ hand
        have hr := hand.2
        unfold alignRegionAt at hr
        by_cases hmm : m' = m
        · rw [hmm] at hr
          omega
        · rcases @regionsDisjoint h.e_phoff h.e_phentsize m m' 0 4
              (alignDelta h.elf_class) (alignWidth h.elf_class)
              (fun hq => hmm hq.symm) (by omega) hw with hd | hd
          · omega
          · omega
      have hload : isLoadEntry h.endian h.e_phoff h.e_phentsize data m := by
        unfold isLoadEntry at hload2 ⊢
        rw [hptagree] at hload2
        exact hload2
      have ha : alignValue h.elf_class h.endian h.e_phoff h.e_phentsize data m =
          some (decodeB h.endian (readBytes data
            (entryOff h.e_phoff h.e_phentsize m + alignDelta h.elf_class)
            (alignWidth h.elf_class))) := by
        unfold alignValue
        exact unpackFrom_pos halb
      have hres := scanFrom_align_result h.elf_class h.endian h.e_phoff
        h.e_phentsize hw h.e_phnum 0 data false d1 c1 m _ hscan (by omega)
        (by omega) hib hload ha
      rw [hres] at hlt2
      simp only [Option.getD_some] at hlt2
      by_cases hq : decodeB h.endian (readBytes data
          (entryOff h.e_phoff h.e_phentsize m + alignDelta h.elf_class)
          (alignWidth h.elf_class)) = 0 ∨
          decodeB h.endian (readBytes data
            (entryOff h.e_phoff h.e_phentsize m + alignDelta h.elf_class)
            (alignWidth h.elf_class)) < PAGE_SIZE
      · rw [if_pos hq] at hlt2
        omega
      · rw [if_neg hq] at hlt2
        omega
    have hsecond := scanFrom_no_patch h.elf_class h.endian h.e_phoff h.e_phentsize
      hw h.e_phnum 0 d1 false hnp1
    have happly : apply_alignment_pure d1 = .ok (d1, false) := by
      unfold apply_alignment_pure
      rw [hhd1, hh]
      dsimp only
      rw [if_neg hz]
      exact hsecond
    refine ⟨happly, ?_, ?_⟩
    · unfold apply_alignment_disk
      rw [happly]
    · unfold apply_alignment_disk
      rw [happly]
      rfl

theorem C2_idempotent_witness :
    apply_alignment_pure witBuf32out = .ok (witBuf32out, false) ∧
    (apply_alignment_disk witBuf32out).wrote = false ∧
    (apply_alignment_disk witBuf32out).disk = witBuf32out :=
  C2_idempotent witBuf32 ⟨ELFCLASS32, Endian.little, 52, 32, 1⟩ (by decide)
    (by decide) (by decide) witBuf32out true (by decide)
